import Mathlib

/-!
# Verification of the `node-typescript-resolver` resolution and elision core

A shallow embedding, in Lean 4, of the heart of the repository:

* the resolve hooks `resolve` / `resolveSync` of `src/loader.ts`, together with
  `isResolutionError`, `normalizeFileUrl`, `formatResolvedResult`,
  `tryResolveTypeOnlyPackage` and `tryResolveTypeOnlyPackageSync`;
* the load hook `load` and the type-only-import elider `filterTypeOnlyImports`;
* the runtime-export introspector `getRuntimeExports` with its export cache and
  its pending-import deduplication map, modelled as a small-step event system;
* the bounded `ResolverCache` and the cached `TypeScriptResolver.resolve` of the
  older resolver generation (the unnamed source file that still carries the
  in-process path cache).

External capabilities (the native Node resolver `nextResolve`, the oxc-based
custom resolver, `node:path` / `node:url` helpers, the oxc parser and the
dynamic-import probe) are taken as explicit function parameters, exactly at the
boundaries where the source calls out of the repository.  JavaScript strings are
modelled as Lean strings with character (code-unit) offsets; every input used in
the theorems below is ASCII, where the two notions of offset coincide.
-/

/-! ## JavaScript string primitives used by the source -/

/-- JS `s.slice(a, b)` for `0 ≤ a`, clamping `b` to the length, on character
offsets. -/
def jsSlice (s : String) (a b : Nat) : String :=
  String.mk ((s.toList.drop a).take (b - a))

/-- JS `s.slice(a)` (to end of string). -/
def jsSliceFrom (s : String) (a : Nat) : String :=
  String.mk (s.toList.drop a)

/-- JS `s.startsWith(pre)` (structural, over the character list). -/
def jsStartsWith (s pre : String) : Bool :=
  pre.toList.isPrefixOf s.toList

/-- JS `s.endsWith(suf)` (structural, over the character list). -/
def jsEndsWith (s suf : String) : Bool :=
  suf.toList.isSuffixOf s.toList

/-- JS `s.indexOf(c)` for a one-character needle; `none` plays the role of
`-1`. -/
def jsIndexOfChar (s : String) (c : Char) : Option Nat :=
  s.toList.findIdx? (· = c)

/-- JS `s.lastIndexOf(c)` for a one-character needle; `none` plays the role of
`-1`. -/
def jsLastIndexOfChar (s : String) (c : Char) : Option Nat :=
  match s.toList.reverse.findIdx? (· = c) with
  | none => none
  | some i => some (s.toList.length - 1 - i)

/-- Insert for the stable sort below: the new element goes after every
already-placed element the comparator keeps before-or-equal it. -/
def stableInsert {α : Type} (le : α → α → Bool) (x : α) : List α → List α
  | [] => [x]
  | y :: ys => if le y x then y :: stableInsert le x ys else x :: y :: ys

/-- JS `Array.prototype.toSorted(cmp)` for a total transitive comparator: a
stable sort (insertion sort; any stable sort computes the same list). -/
def jsToSorted {α : Type} (le : α → α → Bool) (l : List α) : List α :=
  l.foldl (fun acc x => stableInsert le x acc) []

/-- JS `s.includes(sub)` for a non-empty needle (the only needle the source
uses is `"/node_modules/"`; for an empty needle both give `true`): some suffix
of the haystack starts with the needle. -/
def charsContain (needle : List Char) : List Char → Bool
  | [] => needle.isEmpty
  | c :: rest => needle.isPrefixOf (c :: rest) || charsContain needle rest

/-- See `charsContain`. -/
def jsIncludes (s sub : String) : Bool :=
  charsContain sub.toList s.toList

/-- The regex class `\s`, restricted to the whitespace characters that can
occur in the sources the elider edits (ASCII whitespace and NBSP). -/
def jsIsSpace (c : Char) : Bool :=
  c = ' ' || c = '\t' || c = '\n' || c = '\r' || c = '\x0b' || c = '\x0c' || c = ' '

/-- Length of the match of `/^(\s*,\s*)/` against `t`, or `none` when the regex
does not match: maximal whitespace run, a mandatory comma, maximal whitespace
run. -/
def matchLeadingCommaWs (t : String) : Option Nat :=
  let l := t.toList
  let w1 := (l.takeWhile jsIsSpace).length
  match l.drop w1 with
  | ',' :: rest => some (w1 + 1 + (rest.takeWhile jsIsSpace).length)
  | _ => none

/-- Length of the match of `/,\s*$/` against `t`, or `none`: a comma directly
before the trailing whitespace run. -/
def matchTrailingCommaWs (t : String) : Option Nat :=
  let r := t.toList.reverse
  let w := (r.takeWhile jsIsSpace).length
  match r.drop w with
  | ',' :: _ => some (1 + w)
  | _ => none

/-! ## JS `Map` modelled as an insertion-ordered association list

`Map.set` of an existing key updates the entry in place (insertion order is
kept); `Map.set` of a new key appends; `Map.delete` removes the entry;
`Map.keys().next().value` is the key of the head entry. -/

/-- JS `Map.prototype.get`. -/
def mapGet {α : Type} (m : List (String × α)) (k : String) : Option α :=
  (m.find? (·.1 = k)).map (·.2)

/-- JS `Map.prototype.set`: update in place if the key is present, append
otherwise. -/
def mapSet {α : Type} (m : List (String × α)) (k : String) (v : α) : List (String × α) :=
  if m.any (·.1 = k) then m.map (fun p => if p.1 = k then (k, v) else p) else m ++ [(k, v)]

/-- JS `Map.prototype.delete` (the map never holds duplicate keys, so erasing the
first matching entry is exact). -/
def mapDelete {α : Type} (m : List (String × α)) (k : String) : List (String × α) :=
  m.eraseP (·.1 = k)

/-! ## Data model of the resolve hooks (`src/loader.ts`) -/

/-- A JavaScript value thrown by the native resolver: whether it is an `Error`
instance, whether it has a `code` property, and that code and the message. -/
structure JSError where
  isError : Bool
  hasCode : Bool
  code : String
  message : String
deriving DecidableEq, Repr

/-- A resolution result as returned by `nextResolve` or by the hooks:
`{ url, format?, importAttributes?, shortCircuit? }`. -/
structure ResolveResult where
  url : String
  format : Option String
  importAttributes : Option (List (String × String))
  shortCircuit : Option Bool
deriving DecidableEq, Repr

/-- The hook context `{ parentURL?, conditions }` (the source guards
`context.conditions ?? []`, so the conditions are kept optional). -/
structure ResolveContext where
  parentURL : Option String
  conditions : Option (List String)
deriving DecidableEq, Repr

/-- The `node:path` / `node:url` capabilities the loader calls out to.
`pathToFileURL` stands for `pathToFileURL(p).href`. -/
structure NodeEnv where
  pathToFileURL : String → String
  fileURLToPath : String → String
  basename : String → String
  dirname : String → String

/-- The abstract native resolver (`nextResolve`): succeeds with a result or
throws a JS value. -/
abbrev NativeResolve := String → ResolveContext → Except JSError ResolveResult

/-- The abstract custom resolver engine.  `src/resolver.ts` offers the
suspending `TypeScriptResolver.resolve`; its blocking twin `resolveSync` is
called by the loader but its body is not among the provided sources.
Modelled from the spec: the blocking and the suspending variant of the
custom resolution capability have identical decision logic, so one abstract
function `(specifier, parent, conditions) ↦ path?` stands for both; it may
also throw. -/
abbrev CustomResolve := String → Option String → Option (List String) → Except JSError (Option String)

namespace Loader

/-- The classifier `isResolutionError` of `src/loader.ts`: an `Error` instance with a `code`
property equal to one of the five recoverable codes. -/
def isResolutionError (error : JSError) : Bool :=
  error.isError && error.hasCode &&
    (error.code = "ERR_MODULE_NOT_FOUND" ||
      error.code = "ERR_UNSUPPORTED_DIR_IMPORT" ||
      error.code = "ERR_INVALID_MODULE_SPECIFIER" ||
      error.code = "ERR_PACKAGE_PATH_NOT_EXPORTED" ||
      error.code = "MODULE_NOT_FOUND")

/-- The skip test both hooks perform before attempting custom resolution. -/
def isSkippedSpecifier (specifier : String) : Bool :=
  jsStartsWith specifier "node:" || jsStartsWith specifier "http://" ||
    jsStartsWith specifier "https://" || jsStartsWith specifier "data:"

/-- Result of `normalizeFileUrl`. -/
structure NormalizeResult where
  parent : Option String
  specifier : String
deriving DecidableEq, Repr

/-- The function `normalizeFileUrl` of `src/loader.ts`. -/
def normalizeFileUrl (env : NodeEnv) (specifier : String) (parentURL : Option String) :
    NormalizeResult :=
  if !(jsStartsWith specifier "file://") then ⟨parentURL, specifier⟩
  else if (match parentURL with
    | some pu => jsStartsWith pu "file://" && jsStartsWith specifier pu
    | none => false) then
    match parentURL with
    | some pu => ⟨some pu, jsSliceFrom specifier pu.length⟩
    | none => ⟨parentURL, specifier⟩
  else
    match parentURL with
    | none =>
      let filePath := env.fileURLToPath specifier
      let filename := env.basename filePath
      if filename ≠ "" then
        let parentHref := env.pathToFileURL (env.dirname filePath)
        ⟨some (if jsEndsWith parentHref "/" then parentHref else parentHref ++ "/"), filename⟩
      else ⟨none, specifier⟩
    | some _ => ⟨parentURL, specifier⟩

/-- The function `formatResolvedResult` of `src/loader.ts`: map the resolved path's
extension to a delivery format and import attributes. -/
def formatResolvedResult (env : NodeEnv) (resolved : String) : ResolveResult :=
  let url := env.pathToFileURL resolved
  if jsEndsWith resolved ".json" then
    ⟨url, some "json", some [("type", "json")], some true⟩
  else if jsEndsWith resolved ".wasm" then
    ⟨url, some "wasm", some [("type", "wasm")], some true⟩
  else if jsEndsWith resolved ".mts" then
    ⟨url, some "module-typescript", none, some true⟩
  else if jsEndsWith resolved ".cts" then
    ⟨url, some "commonjs-typescript", none, some true⟩
  else
    ⟨url, none, none, some true⟩

/-- The context with a `"types"` condition appended, as built by both
type-only-package retries: `[...(context.conditions ?? []), "types"]`. -/
def typesContext (context : ResolveContext) : ResolveContext :=
  { context with conditions := some ((context.conditions.getD []) ++ ["types"]) }

/-- The synthesized empty-module result
`{ format: "module", shortCircuit: true, url: "data:text/javascript," }`. -/
def emptyModuleResult : ResolveResult :=
  ⟨"data:text/javascript,", some "module", none, some true⟩

/-- The function `tryResolveTypeOnlyPackage` of `src/loader.ts`: retry through the native
resolver with a `"types"` condition. -/
def tryResolveTypeOnlyPackage (nextResolve : NativeResolve) (specifier : String)
    (context : ResolveContext) : Except JSError ResolveResult :=
  match nextResolve specifier (typesContext context) with
  | .error e => .error e
  | .ok typesResult =>
    if jsEndsWith typesResult.url ".d.ts" && jsIncludes typesResult.url "/node_modules/" then
      .ok emptyModuleResult
    else
      .ok ⟨typesResult.url, none, typesResult.importAttributes, some true⟩

/-- The function `tryResolveTypeOnlyPackageSync` of `src/loader.ts`: unlike the suspending
version it retries through the *custom* oxc-based resolver with the `"types"`
condition, and throws fresh `Error`s (no `code` property) on failure. -/
def tryResolveTypeOnlyPackageSync (env : NodeEnv) (hasResolver : Bool)
    (customResolve : CustomResolve) (specifier : String) (context : ResolveContext) :
    Except JSError ResolveResult :=
  if !hasResolver then .error ⟨true, false, "", "Resolver not initialized"⟩
  else
    let conditionsWithTypes := (context.conditions.getD []) ++ ["types"]
    let n := normalizeFileUrl env specifier context.parentURL
    match customResolve n.specifier n.parent (some conditionsWithTypes) with
    | .error e => .error e
    | .ok none =>
      .error ⟨true, false, "", "Failed to resolve type-only package: " ++ specifier⟩
    | .ok (some resolved) =>
      let resolvedUrl := env.pathToFileURL resolved
      if jsEndsWith resolvedUrl ".d.ts" && jsIncludes resolvedUrl "/node_modules/" then
        .ok emptyModuleResult
      else
        .ok (formatResolvedResult env resolved)

/-- The tail both hooks share after the type-only retry: call the custom
resolver; on a path, format it; on `null` or a throw, rethrow the original
native error. -/
def customFallback (env : NodeEnv) (customResolve : CustomResolve) (error : JSError)
    (normSpecifier : String) (normParent : Option String)
    (conditions : Option (List String)) : Except JSError ResolveResult :=
  match customResolve normSpecifier normParent conditions with
  | .error _ => .error error
  | .ok none => .error error
  | .ok (some resolved) => .ok (formatResolvedResult env resolved)

/-- The suspending resolve hook `resolve` of `src/loader.ts`.  `hasResolver`
is the `resolver !== null` initialization state. -/
def resolve (env : NodeEnv) (hasResolver : Bool) (customResolve : CustomResolve)
    (nextResolve : NativeResolve) (specifier : String) (context : ResolveContext) :
    Except JSError ResolveResult :=
  match nextResolve specifier context with
  | .ok r => .ok r
  | .error error =>
    if !isResolutionError error then .error error
    else if isSkippedSpecifier specifier then .error error
    else
      let n := normalizeFileUrl env specifier context.parentURL
      if !hasResolver then .error error
      else if error.code = "ERR_PACKAGE_PATH_NOT_EXPORTED" then
        match tryResolveTypeOnlyPackage nextResolve specifier context with
        | .ok r => .ok r
        | .error _ => customFallback env customResolve error n.specifier n.parent context.conditions
      else
        customFallback env customResolve error n.specifier n.parent context.conditions

/-- The blocking resolve hook `resolveSync` of `src/loader.ts`. -/
def resolveSync (env : NodeEnv) (hasResolver : Bool) (customResolve : CustomResolve)
    (nextResolve : NativeResolve) (specifier : String) (context : ResolveContext) :
    Except JSError ResolveResult :=
  match nextResolve specifier context with
  | .ok r => .ok r
  | .error error =>
    if !isResolutionError error then .error error
    else if isSkippedSpecifier specifier then .error error
    else
      let n := normalizeFileUrl env specifier context.parentURL
      if !hasResolver then .error error
      else if error.code = "ERR_PACKAGE_PATH_NOT_EXPORTED" then
        match tryResolveTypeOnlyPackageSync env hasResolver customResolve specifier context with
        | .ok r => .ok r
        | .error _ => customFallback env customResolve error n.specifier n.parent context.conditions
      else
        customFallback env customResolve error n.specifier n.parent context.conditions

end Loader

/-! ## The type-only-import elider (`filterTypeOnlyImports` in `src/loader.ts`)

The oxc parser is an external capability; its output is modelled as the node
shapes the elider reads: import declarations with character offsets
(`start`/`stop` embed oxc's `start`/`end`), their specifier clauses, and a
parse-error list. -/

/-- The field `spec.imported`: an `Identifier` (has a `name` property) or a module-string
`StringLiteral` (has no `name` property). -/
inductive ImportedRef where
  | ident (name : String)
  | strLit (value : String)
deriving DecidableEq, Repr

/-- The tag `spec.type` of an import-clause node. -/
inductive SpecifierKind where
  | importSpecifier
  | importDefaultSpecifier
  | importNamespaceSpecifier
deriving DecidableEq, Repr

/-- One entry of `node.specifiers`. -/
structure SpecifierNode where
  kind : SpecifierKind
  importKind : Option String
  imported : ImportedRef
  localName : String
  start : Nat
  stop : Nat
deriving DecidableEq, Repr

/-- An `ImportDeclaration` node. -/
structure ImportDeclNode where
  importKind : String
  sourceValue : String
  specifiers : List SpecifierNode
  start : Nat
  stop : Nat
deriving DecidableEq, Repr

/-- A top-level statement: an import declaration or anything else (skipped by
the elider's loop). -/
inductive StatementNode where
  | importDecl (d : ImportDeclNode)
  | other
deriving DecidableEq, Repr

/-- The parse result consumed by the elider: error list and program body. -/
structure ParseResult where
  errors : List String
  body : List StatementNode
deriving DecidableEq, Repr

/-- The abstract oxc parser: `parse(url, source)`. -/
abbrev ParseFn := String → String → ParseResult

/-- The (awaited) runtime-export introspection capability as the elider sees
it: `none` is the null sentinel "introspection failed/unavailable". -/
abbrev GetExports := String → Option (List String)

/-- One planned edit `{ start, end, replacement }`. -/
structure Modification where
  start : Nat
  stop : Nat
  replacement : String
deriving DecidableEq, Repr

namespace Loader

/-- The expression `"name" in imported ? imported.name : spec.local.name`. -/
def importedNameOf (spec : SpecifierNode) : String :=
  match spec.imported with
  | .ident n => n
  | .strLit _ => spec.localName

/-- The per-declaration body of the elider's main loop: the list of
modifications this `ImportDeclaration` contributes. -/
def nodeModifications (getExports : GetExports) (source : String) (node : ImportDeclNode) :
    List Modification :=
  if node.importKind = "type" then []
  else
    let specifier := node.sourceValue
    if jsStartsWith specifier "." || jsStartsWith specifier "/" || jsStartsWith specifier "node:" then []
    else
      match getExports specifier with
      | none => []
      | some runtimeExports =>
        let specifiersToRemove := node.specifiers.filter (fun s =>
          s.kind = SpecifierKind.importSpecifier && s.importKind ≠ some "type" &&
            !(runtimeExports.contains (importedNameOf s)))
        if specifiersToRemove.length = 0 then []
        else
          let namedSpecifiers := node.specifiers.filter
            (fun s => s.kind = SpecifierKind.importSpecifier)
          let remainingCount := namedSpecifiers.length - specifiersToRemove.length
          if remainingCount = 0 then
            let hasOtherImports := node.specifiers.any (fun s =>
              s.kind = SpecifierKind.importDefaultSpecifier ||
                s.kind = SpecifierKind.importNamespaceSpecifier)
            if hasOtherImports then
              let importText := jsSlice source node.start node.stop
              match jsIndexOfChar importText '{', jsLastIndexOfChar importText '}' with
              | some braceStart, some braceEnd =>
                let removeEnd := node.start + braceEnd + 1
                let beforeBraces := jsSlice importText 0 braceStart
                let removeStart :=
                  match jsLastIndexOfChar beforeBraces ',' with
                  | some commaIndex => node.start + commaIndex
                  | none => node.start + braceStart
                [⟨removeStart, removeEnd, ""⟩]
              | _, _ => []
            else
              [⟨node.start, node.stop,
                "/* removed type-only: " ++ jsSlice source node.start node.stop ++ " */"⟩]
          else
            let sortedToRemove :=
              jsToSorted (fun a b => decide (b.start ≤ a.start)) specifiersToRemove
            sortedToRemove.map (fun spec =>
              let afterSpec := jsSlice source spec.stop node.stop
              match matchLeadingCommaWs afterSpec with
              | some len => ⟨spec.start, spec.stop + len, ""⟩
              | none =>
                let beforeSpec := jsSlice source node.start spec.start
                match matchTrailingCommaWs beforeSpec with
                | some len => ⟨spec.start - len, spec.stop, ""⟩
                | none => ⟨spec.start, spec.stop, ""⟩)

/-- Apply one `{ start, end, replacement }` splice. -/
def applyModification (modified : String) (mod : Modification) : String :=
  jsSlice modified 0 mod.start ++ mod.replacement ++ jsSliceFrom modified mod.stop

/-- The elider `filterTypeOnlyImports` of `src/loader.ts`. -/
def filterTypeOnlyImports (getExports : GetExports) (parse : ParseFn)
    (source url : String) : String :=
  let result := parse url source
  if result.errors.length > 0 then source
  else
    let modifications := (result.body.map (fun st =>
      match st with
      | .importDecl node => nodeModifications getExports source node
      | .other => [])).flatten
    if modifications.length = 0 then source
    else
      let sortedMods := jsToSorted (fun a b => decide (b.start ≤ a.start)) modifications
      sortedMods.foldl applyModification source

/-- The `{ format, source? }` part of a load-hook result (other fields pass
through unchanged by object spread and so are not modelled). -/
structure LoadResult where
  format : Option String
  source : Option String
deriving DecidableEq, Repr

/-- The load hook `load` of `src/loader.ts` (the context argument is passed
through to `nextLoad` untouched and is folded into the abstract `nextLoad`). -/
def load (getExports : GetExports) (parse : ParseFn)
    (nextLoad : String → Except JSError LoadResult) (url : String) :
    Except JSError LoadResult :=
  match nextLoad url with
  | .error e => .error e
  | .ok result =>
    if result.format ≠ some "module-typescript" then .ok result
    else
      match result.source with
      | none => .ok result
      | some source =>
        let filtered := filterTypeOnlyImports getExports parse source url
        if filtered ≠ source then .ok { result with source := some filtered }
        else .ok result

end Loader

/-! ## The runtime-export introspector (`getRuntimeExports` in `src/loader.ts`)

`getRuntimeExports` is asynchronous; under Node's single-threaded event loop
its synchronous prefix (export-cache lookup, pending-map lookup, promise
creation and `pendingImports.set`) runs atomically, and the promise body after
`await import(specifier)` settles (cache update in `try`/`catch`, then
`pendingImports.delete` in `finally`) runs atomically as well.  The model is a
small-step system with exactly these two kinds of atomic step.  `started` logs
every dynamic-import probe actually launched, and each in-flight probe carries
a numeric identity so that "returns the existing in-flight result" is the
statement that the joining call waits on the same probe id. -/

namespace Introspector

/-- The introspector's shared state: `runtimeExportsCache`, `pendingImports`
(each pending probe tagged with its identity), a fresh-identity counter, and
the log of launched probes. -/
structure IState where
  cache : List (String × Option (List String))
  pending : List (String × Nat)
  nextId : Nat
  started : List (String × Nat)
deriving DecidableEq, Repr

/-- What a `getRuntimeExports` call does, as seen by its caller: an immediate
cached value (possibly the null sentinel), or waiting on the probe with the
given identity. -/
inductive CallOutcome where
  | hit (v : Option (List String))
  | wait (id : Nat)
deriving DecidableEq, Repr

/-- How the dynamic-import probe settles: the module's export-name list
(`Object.keys(mod)`), or a throw of any kind. -/
inductive ProbeOutcome where
  | ok (names : List String)
  | err
deriving DecidableEq, Repr

/-- The synchronous prefix of `getRuntimeExports`: cache check, pending check,
otherwise start a fresh probe and record it in the pending map. -/
def getRuntimeExports (st : IState) (s : String) : IState × CallOutcome :=
  match mapGet st.cache s with
  | some cached => (st, .hit cached)
  | none =>
    match mapGet st.pending s with
    | some id => (st, .wait id)
    | none =>
      (⟨st.cache, mapSet st.pending s st.nextId, st.nextId + 1,
        st.started ++ [(s, st.nextId)]⟩, .wait st.nextId)

/-- The promise body once `await import(specifier)` settles: on success cache
the export set and return it, on any failure cache the null sentinel and
return `null` — never rethrow. -/
def probeBody (cache : List (String × Option (List String))) (s : String)
    (o : ProbeOutcome) : List (String × Option (List String)) × Option (List String) :=
  match o with
  | .ok names => (mapSet cache s (some names), some names)
  | .err => (mapSet cache s none, none)

/-- Settlement step: run the promise body, then the `finally` clause removes
the specifier from the pending map unconditionally. -/
def settleProbe (st : IState) (s : String) (o : ProbeOutcome) :
    IState × Option (List String) :=
  let r := probeBody st.cache s o
  (⟨r.1, mapDelete st.pending s, st.nextId, st.started⟩, r.2)

/-- An interleaving event: some caller's `getRuntimeExports` reaches its
synchronous prefix, or an in-flight probe settles. -/
inductive IEvent where
  | call (s : String)
  | settle (s : String) (o : ProbeOutcome)
deriving DecidableEq, Repr

/-- State transition of one event. -/
def stepEvent (st : IState) : IEvent → IState
  | .call s => (getRuntimeExports st s).1
  | .settle s o => (settleProbe st s o).1

/-- Run a sequence of interleaved events. -/
def runEvents (st : IState) (evs : List IEvent) : IState :=
  evs.foldl stepEvent st

/-- The fresh state at module initialization: empty caches and maps. -/
def initState : IState := ⟨[], [], 0, []⟩

/-- Valid interleavings: a settle event only fires for a probe that is
actually in flight (in real executions a promise settles once, for a probe
that was started). -/
inductive OkTrace : IState → List IEvent → Prop
  | nil {st : IState} : OkTrace st []
  | call {st : IState} {s : String} {evs : List IEvent}
      (h : OkTrace (stepEvent st (.call s)) evs) : OkTrace st (.call s :: evs)
  | settle {st : IState} {s : String} {o : ProbeOutcome} {evs : List IEvent} {id : Nat}
      (hp : mapGet st.pending s = some id)
      (h : OkTrace (stepEvent st (.settle s o)) evs) : OkTrace st (.settle s o :: evs)

end Introspector

/-! ## The bounded path-resolution cache and the cached resolver

From the older resolver generation (the unnamed source file carrying
`ResolverCache` and the cache-keyed `TypeScriptResolver.resolve`). -/

/-- The class `ResolverCache`: a bounded `Map` from key strings to resolved paths. -/
structure ResolverCache where
  cache : List (String × String)
  maxSize : Nat
deriving DecidableEq, Repr

namespace ResolverCache

/-- The method `ResolverCache.get` (a pure `Map.get`: no state change). -/
def get (c : ResolverCache) (key : String) : Option String :=
  mapGet c.cache key

/-- The method `ResolverCache.set`: when the map has reached `maxSize`, delete the first
(oldest-inserted) key — guarded by JS truthiness of that key — then insert. -/
def set (c : ResolverCache) (key value : String) : ResolverCache :=
  let cache :=
    if c.maxSize ≤ c.cache.length then
      match c.cache.head? with
      | some first => if first.1 ≠ "" then mapDelete c.cache first.1 else c.cache
      | none => c.cache
    else c.cache
  { c with cache := mapSet cache key value }

/-- The method `ResolverCache.clear`. -/
def clear (c : ResolverCache) : ResolverCache :=
  { c with cache := [] }

end ResolverCache

/-- An externally observable cache operation. -/
inductive CacheOp where
  | get (k : String)
  | set (k v : String)
deriving DecidableEq, Repr

/-- Apply one operation to the cache: `get` reads without mutating (JS
`Map.get` does not touch insertion order), `set` inserts with eviction. -/
def applyCacheOp (c : ResolverCache) : CacheOp → ResolverCache
  | .get _ => c
  | .set k v => c.set k v

/-- Run a sequence of cache operations. -/
def runCacheOps (c : ResolverCache) (ops : List CacheOp) : ResolverCache :=
  ops.foldl applyCacheOp c

/-- The keys a `set` operation writes (the program only ever writes keys of
the shape `specifier + ":" + parent`, which are never empty). -/
def cacheOpKeyOk : CacheOp → Prop
  | .get _ => True
  | .set k _ => k ≠ ""

instance (op : CacheOp) : Decidable (cacheOpKeyOk op) := by
  cases op with
  | get k => exact inferInstanceAs (Decidable True)
  | set k v => exact inferInstanceAs (Decidable (k ≠ ""))

namespace TypeScriptResolver

/-- The cache key of the cached resolver:
`` `${specifier}:${parent}` `` — a plain string concatenation. -/
def cacheKey (specifier parent : String) : String :=
  specifier ++ ":" ++ parent

/-- The abstract `oxcResolver.sync(parentDir, specifier)` capability: a path
(optional) or a throw. -/
abbrev OxcSync := String → String → Except Unit (Option String)

/-- The cache-miss tail of `TypeScriptResolver.resolve`: convert the parent to
a directory, consult the oxc engine, and cache a truthy resulting path. -/
def resolveMiss (env : NodeEnv) (oxcSync : OxcSync) (cache : ResolverCache)
    (specifier parent : String) : ResolverCache × Option String :=
  let parentPath := if jsStartsWith parent "file://" then env.fileURLToPath parent else parent
  let parentDir := env.dirname parentPath
  match oxcSync parentDir specifier with
  | .ok (some p) =>
    if p = "" then (cache, none)
    else (cache.set (cacheKey specifier parent) p, some p)
  | .ok none => (cache, none)
  | .error _ => (cache, none)

/-- The method `TypeScriptResolver.resolve` of the cached resolver generation: look the
key up in the cache (JS truthiness on the hit), fall back to the engine. -/
def resolve (env : NodeEnv) (oxcSync : OxcSync) (cache : ResolverCache)
    (specifier parent : String) : ResolverCache × Option String :=
  match cache.get (cacheKey specifier parent) with
  | some cached =>
    if cached = "" then resolveMiss env oxcSync cache specifier parent
    else (cache, some cached)
  | none => resolveMiss env oxcSync cache specifier parent

/-- The method as its call sites see it: callers pass the active conditions
list as a third argument, and JavaScript silently drops arguments beyond a
function's declared parameters, so the conditions take no part in the
computation. -/
def resolveWithConditions (env : NodeEnv) (oxcSync : OxcSync) (cache : ResolverCache)
    (specifier parent : String) (_conditions : List String) : ResolverCache × Option String :=
  resolve env oxcSync cache specifier parent

end TypeScriptResolver

deriving instance DecidableEq for Except

/-! ## Concrete instances of the external capabilities, for closed theorems -/

/-- A concrete POSIX `dirname` (instance of the external `node:path`
capability, used in closed theorems). -/
def posixDirname (p : String) : String :=
  match jsLastIndexOfChar p '/' with
  | none => "."
  | some 0 => "/"
  | some i => jsSlice p 0 i

/-- A concrete POSIX `basename`. -/
def posixBasename (p : String) : String :=
  match jsLastIndexOfChar p '/' with
  | none => p
  | some i => jsSliceFrom p (i + 1)

/-- A concrete `NodeEnv` over POSIX paths without characters needing URL
percent-encoding. -/
def env0 : NodeEnv :=
  ⟨fun p => "file://" ++ p, fun u => jsSliceFrom u 7, posixBasename, posixDirname⟩

/-! ## Helper lemmas about the map model -/

theorem mapGet_cons {α : Type} (p : String × α) (t : List (String × α)) (k : String) :
    mapGet (p :: t) k = if p.1 = k then some p.2 else mapGet t k := by
  by_cases hp : p.1 = k
  · simp [mapGet, List.find?, hp]
  · simp [mapGet, List.find?, hp]

theorem mapGet_mapSet_self {α : Type} (m : List (String × α)) (k : String) (v : α) :
    mapGet (mapSet m k v) k = some v := by
  induction m with
  | nil => simp [mapSet, mapGet, List.find?]
  | cons p t ih =>
    rw [mapSet]
    by_cases hp : p.1 = k
    · rw [if_pos (by simp [List.any_cons, hp])]
      simp only [List.map_cons, if_pos hp]
      rw [mapGet_cons]
      simp
    · cases hat : t.any (·.1 = k) with
      | true =>
        rw [if_pos (by simp [List.any_cons, hat])]
        rw [mapSet, if_pos hat] at ih
        simp only [List.map_cons, if_neg hp]
        rw [mapGet_cons, if_neg hp]
        exact ih
      | false =>
        rw [if_neg (by simp [List.any_cons, hp, hat])]
        rw [mapSet, if_neg (by simp [hat])] at ih
        rw [List.cons_append, mapGet_cons, if_neg hp]
        exact ih

theorem mapGet_mapSet_ne {α : Type} (m : List (String × α)) (k k' : String) (v : α)
    (h : k' ≠ k) : mapGet (mapSet m k v) k' = mapGet m k' := by
  induction m with
  | nil => simp [mapSet, mapGet, List.find?, Ne.symm h]
  | cons p t ih =>
    rw [mapSet]
    by_cases hany : (p :: t).any (·.1 = k) = true
    · rw [if_pos hany]
      simp only [List.map_cons]
      by_cases hp : p.1 = k
      · rw [if_pos hp, mapGet_cons, mapGet_cons]
        rw [if_neg (by simp [Ne.symm h]), if_neg (by rw [hp]; exact Ne.symm h)]
        by_cases hat : t.any (·.1 = k) = true
        · rw [mapSet, if_pos hat] at ih
          exact ih
        · have ht : List.map (fun q => if q.1 = k then (k, v) else q) t = t := by
            have hq : ∀ q ∈ t, (if q.1 = k then (k, v) else q) = q := by
              intro q hqmem
              rw [if_neg]
              intro hqk
              exact hat (List.any_eq_true.mpr ⟨q, hqmem, by simp [hqk]⟩)
            calc List.map (fun q => if q.1 = k then (k, v) else q) t
                = List.map id t := List.map_congr_left hq
              _ = t := List.map_id t
          rw [ht]
      · rw [if_neg hp, mapGet_cons, mapGet_cons]
        by_cases hpk' : p.1 = k'
        · rw [if_pos hpk', if_pos hpk']
        · rw [if_neg hpk', if_neg hpk']
          have hat : t.any (·.1 = k) = true := by
            simp [List.any_cons, hp] at hany
            simpa using hany
          rw [mapSet, if_pos hat] at ih
          exact ih
    · rw [if_neg hany]
      rw [List.cons_append, mapGet_cons, mapGet_cons]
      by_cases hpk' : p.1 = k'
      · rw [if_pos hpk', if_pos hpk']
      · rw [if_neg hpk', if_neg hpk']
        have hat : ¬ t.any (·.1 = k) = true := by
          simp [List.any_cons] at hany
          simp [hany.2]
        rw [mapSet, if_neg hat] at ih
        exact ih

theorem mapGet_mapDelete_ne {α : Type} (m : List (String × α)) (k k' : String)
    (h : k' ≠ k) : mapGet (mapDelete m k) k' = mapGet m k' := by
  unfold mapDelete
  induction m with
  | nil => rfl
  | cons p t ih =>
    by_cases hp : p.1 = k
    · rw [List.eraseP_cons_of_pos (by simpa using hp)]
      rw [mapGet_cons, if_neg (by rw [hp]; exact Ne.symm h)]
    · rw [List.eraseP_cons_of_neg (by simpa using hp)]
      rw [mapGet_cons, mapGet_cons]
      by_cases hpk' : p.1 = k'
      · rw [if_pos hpk', if_pos hpk']
      · rw [if_neg hpk', if_neg hpk']
        exact ih

/-! ## Lemmas about the shared fallback tail -/

namespace Loader

theorem customFallback_error_imp {env : NodeEnv} {cr : CustomResolve} {err : JSError}
    {a : String} {b : Option String} {c : Option (List String)} {e : JSError}
    (h : customFallback env cr err a b c = .error e) : e = err := by
  unfold customFallback at h
  rcases hcr : cr a b c with e' | o
  · rw [hcr] at h; injection h with h; exact h.symm
  · rw [hcr] at h
    cases o with
    | none => injection h with h; exact h.symm
    | some r => cases h

theorem customFallback_eq_error {env : NodeEnv} {cr : CustomResolve} {err : JSError}
    {a : String} {b : Option String} {c : Option (List String)}
    (h : ∀ r, cr a b c ≠ .ok (some r)) : customFallback env cr err a b c = .error err := by
  unfold customFallback
  rcases hcr : cr a b c with e' | o
  · rfl
  · cases o with
    | none => rfl
    | some r => exact absurd hcr (h r)

theorem tryResolveTypeOnlyPackageSync_not_ok {env : NodeEnv} {hr : Bool}
    {cr : CustomResolve} {s : String} {ctx : ResolveContext}
    (h3 : ∀ a b c r, cr a b c ≠ .ok (some r)) :
    ∀ r, tryResolveTypeOnlyPackageSync env hr cr s ctx ≠ .ok r := by
  intro r hok
  unfold tryResolveTypeOnlyPackageSync at hok
  by_cases hhr : hr
  · simp only [hhr, Bool.not_true, Bool.false_eq_true, if_false] at hok
    rcases hcr : cr (normalizeFileUrl env s ctx.parentURL).specifier
        (normalizeFileUrl env s ctx.parentURL).parent
        (some ((ctx.conditions.getD []) ++ ["types"])) with e' | o
    · rw [hcr] at hok; cases hok
    · rw [hcr] at hok
      cases o with
      | none => cases hok
      | some p => exact absurd hcr (h3 _ _ _ p)
  · simp only [hhr] at hok
    cases hok

end Loader

/-- C1: for every invocation of either resolve hook, a native failure whose
code is not one of the five recoverable codes is rethrown unchanged (same
error value, hence same code and message), and the result is independent of
the custom fallback — which is therefore never attempted. -/
theorem spec_c1 (env : NodeEnv) (hasResolver : Bool) (customResolve : CustomResolve)
    (nextResolve : NativeResolve) (specifier : String) (context : ResolveContext)
    (err : JSError)
    (h1 : nextResolve specifier context = .error err)
    (h2 : Loader.isResolutionError err = false) :
    Loader.resolve env hasResolver customResolve nextResolve specifier context = .error err ∧
    Loader.resolveSync env hasResolver customResolve nextResolve specifier context = .error err := by
  constructor
  · simp only [Loader.resolve, h1]
    simp [h2]
  · simp only [Loader.resolveSync, h1]
    simp [h2]

/-- Fixture for the C1 witness: a native resolver that always fails with a
permissions error. -/
def eaccesErr : JSError := ⟨true, true, "EACCES", "permission denied, open /secret"⟩

/-- See `eaccesErr`. -/
def nrEacces : NativeResolve := fun _ _ => .error eaccesErr

/-- A custom resolver that would succeed — C1 shows it is never consulted. -/
def crAlways : CustomResolve := fun _ _ _ => .ok (some "/app/found.ts")

/-- Witness for C1 at a concrete input. -/
theorem spec_c1_witness :
    Loader.resolve env0 true crAlways nrEacces "./m" ⟨some "file:///app/a.ts", some ["node"]⟩ =
      .error eaccesErr ∧
    Loader.resolveSync env0 true crAlways nrEacces "./m" ⟨some "file:///app/a.ts", some ["node"]⟩ =
      .error eaccesErr :=
  spec_c1 env0 true crAlways nrEacces "./m" ⟨some "file:///app/a.ts", some ["node"]⟩
    eaccesErr (by decide) (by decide)

/-- C2: when the native resolver fails with a recoverable code and the custom
fallback finds nothing (the custom resolver yields `null` or throws, never a
path), any error either hook ultimately raises is the original native error
object — in fact the blocking hook raises exactly it; no newly constructed
error ever surfaces. -/
theorem spec_c2 (env : NodeEnv) (hasResolver : Bool) (customResolve : CustomResolve)
    (nextResolve : NativeResolve) (specifier : String) (context : ResolveContext)
    (err : JSError)
    (h1 : nextResolve specifier context = .error err)
    (h2 : Loader.isResolutionError err = true)
    (h3 : ∀ a b c r, customResolve a b c ≠ .ok (some r)) :
    (∀ e, Loader.resolve env hasResolver customResolve nextResolve specifier context =
        .error e → e = err) ∧
    Loader.resolveSync env hasResolver customResolve nextResolve specifier context =
      .error err := by
  constructor
  · intro e he
    simp only [Loader.resolve, h1] at he
    rw [h2] at he
    simp only [Bool.not_true, Bool.false_eq_true, if_false] at he
    by_cases hskip : Loader.isSkippedSpecifier specifier = true
    · rw [if_pos hskip] at he
      injection he with he; exact he.symm
    · rw [if_neg hskip] at he
      by_cases hres : hasResolver = true
      · simp only [hres, Bool.not_true, Bool.false_eq_true, if_false] at he
        by_cases hcode : err.code = "ERR_PACKAGE_PATH_NOT_EXPORTED"
        · rw [if_pos hcode] at he
          rcases htp : Loader.tryResolveTypeOnlyPackage nextResolve specifier context
            with e' | r
          · rw [htp] at he
            exact Loader.customFallback_error_imp he
          · rw [htp] at he
            cases he
        · rw [if_neg hcode] at he
          exact Loader.customFallback_error_imp he
      · simp only [Bool.not_eq_true] at hres
        simp only [hres, Bool.not_false, if_true] at he
        injection he with he; exact he.symm
  · simp only [Loader.resolveSync, h1]
    rw [h2]
    simp only [Bool.not_true, Bool.false_eq_true, if_false]
    by_cases hskip : Loader.isSkippedSpecifier specifier = true
    · rw [if_pos hskip]
    · rw [if_neg hskip]
      by_cases hres : hasResolver = true
      · subst hres
        simp only [Bool.not_true, Bool.false_eq_true, if_false]
        have hcf := @Loader.customFallback_eq_error env customResolve err
          (Loader.normalizeFileUrl env specifier context.parentURL).specifier
          (Loader.normalizeFileUrl env specifier context.parentURL).parent
          context.conditions (fun r => h3 _ _ _ r)
        by_cases hcode : err.code = "ERR_PACKAGE_PATH_NOT_EXPORTED"
        · rw [if_pos hcode]
          rcases htp : Loader.tryResolveTypeOnlyPackageSync env true customResolve
              specifier context with e' | r
          · exact hcf
          · exact absurd htp (Loader.tryResolveTypeOnlyPackageSync_not_ok h3 r)
        · rw [if_neg hcode]
          exact hcf
      · simp only [Bool.not_eq_true] at hres
        simp only [hres, Bool.not_false, if_true]

/-- Fixture for the C2 witness: a native not-found failure. -/
def notFoundErr : JSError := ⟨true, true, "ERR_MODULE_NOT_FOUND", "Cannot find module"⟩

/-- See `notFoundErr`. -/
def nrNotFound : NativeResolve := fun _ _ => .error notFoundErr

/-- A custom resolver that always misses. -/
def crMiss : CustomResolve := fun _ _ _ => .ok none

/-- Witness for C2 at a concrete input. -/
theorem spec_c2_witness :
    (∀ e, Loader.resolve env0 true crMiss nrNotFound "pkg"
        ⟨some "file:///app/a.ts", some ["node"]⟩ = .error e → e = notFoundErr) ∧
    Loader.resolveSync env0 true crMiss nrNotFound "pkg"
      ⟨some "file:///app/a.ts", some ["node"]⟩ = .error notFoundErr :=
  spec_c2 env0 true crMiss nrNotFound "pkg" ⟨some "file:///app/a.ts", some ["node"]⟩
    notFoundErr (by decide) (by decide) (fun _ _ _ _ h => by simp [crMiss] at h)

/-- C5: on a native `ERR_PACKAGE_PATH_NOT_EXPORTED` failure, the suspending
hook first retries through the native resolver with a `"types"` condition
appended to the active conditions; a retry hit on a `.d.ts` file under a
`node_modules` directory immediately yields the empty side-effect-free module
(regardless of the custom resolver), and a failing retry falls through to the
cache/custom-resolver fallback. -/
theorem spec_c5 (env : NodeEnv) (customResolve : CustomResolve)
    (nextResolve : NativeResolve) (specifier : String) (context : ResolveContext)
    (err : JSError)
    (h1 : nextResolve specifier context = .error err)
    (hie : err.isError = true) (hhc : err.hasCode = true)
    (hcode : err.code = "ERR_PACKAGE_PATH_NOT_EXPORTED")
    (hskip : Loader.isSkippedSpecifier specifier = false) :
    (∀ tr, nextResolve specifier (Loader.typesContext context) = .ok tr →
      jsEndsWith tr.url ".d.ts" = true → jsIncludes tr.url "/node_modules/" = true →
      Loader.resolve env true customResolve nextResolve specifier context =
        .ok Loader.emptyModuleResult) ∧
    (∀ e2, nextResolve specifier (Loader.typesContext context) = .error e2 →
      Loader.resolve env true customResolve nextResolve specifier context =
        Loader.customFallback env customResolve err
          (Loader.normalizeFileUrl env specifier context.parentURL).specifier
          (Loader.normalizeFileUrl env specifier context.parentURL).parent
          context.conditions) := by
  have hre : Loader.isResolutionError err = true := by
    simp [Loader.isResolutionError, hie, hhc, hcode]
  constructor
  · intro tr htr hdts hnm
    simp only [Loader.resolve, h1, hre, Bool.not_true, Bool.false_eq_true, if_false,
      hskip, if_pos hcode]
    simp only [Loader.tryResolveTypeOnlyPackage, htr, hdts, hnm, Bool.and_self, if_true]
  · intro e2 he2
    simp only [Loader.resolve, h1, hre, Bool.not_true, Bool.false_eq_true, if_false,
      hskip, if_pos hcode]
    simp only [Loader.tryResolveTypeOnlyPackage, he2]

/-- Fixture for the C5 witness: fails without the `"types"` condition,
resolves to a `.d.ts` under `node_modules` with it. -/
def nrTypesOnly : NativeResolve := fun _ ctx =>
  if (ctx.conditions.getD []).contains "types" then
    .ok ⟨"file:///app/node_modules/type-fest/index.d.ts", none, none, none⟩
  else .error ⟨true, true, "ERR_PACKAGE_PATH_NOT_EXPORTED", "No exports main defined"⟩

/-- Witness for C5 at a concrete input: the retry hit yields the empty
module even though the custom resolver always misses. -/
theorem spec_c5_witness :
    Loader.resolve env0 true crMiss nrTypesOnly "type-fest"
      ⟨some "file:///app/a.ts", some ["node", "import"]⟩ = .ok Loader.emptyModuleResult :=
  (spec_c5 env0 crMiss nrTypesOnly "type-fest" ⟨some "file:///app/a.ts", some ["node", "import"]⟩
      ⟨true, true, "ERR_PACKAGE_PATH_NOT_EXPORTED", "No exports main defined"⟩
      (by decide) (by decide) (by decide) (by decide) (by decide)).1
    ⟨"file:///app/node_modules/type-fest/index.d.ts", none, none, none⟩
    (by decide) (by decide) (by decide)

/-- Fixtures for the C4 counterexample: a native resolver that fails with
`ERR_PACKAGE_PATH_NOT_EXPORTED` on the active conditions but resolves to a
`.d.ts` under `node_modules` once a `"types"` condition is present. -/
def ppneErr : JSError := ⟨true, true, "ERR_PACKAGE_PATH_NOT_EXPORTED", "No exports main defined"⟩

/-- See `ppneErr`. -/
def nrPpne : NativeResolve := fun _ ctx =>
  if (ctx.conditions.getD []).contains "types" then
    .ok ⟨"file:///app/node_modules/pkg/index.d.ts", none, none, none⟩
  else .error ppneErr

/-- See `ppneErr`: the shared custom engine finds nothing. -/
def crNone : CustomResolve := fun _ _ _ => .ok none

/-- See `ppneErr`. -/
def ctx4 : ResolveContext := ⟨some "file:///app/main.ts", some ["node", "import"]⟩

/-- Counterexample to C4 as stated: with the very same native resolver,
custom resolver, specifier and context, the suspending hook succeeds with the
synthesized empty module while the blocking hook throws the original error —
because the suspending variant retries `ERR_PACKAGE_PATH_NOT_EXPORTED`
through the native resolver and the blocking variant retries through the
custom resolver. -/
theorem spec_c4_counterexample :
    Loader.resolve env0 true crNone nrPpne "pkg" ctx4 = .ok Loader.emptyModuleResult ∧
    Loader.resolveSync env0 true crNone nrPpne "pkg" ctx4 = .error ppneErr ∧
    Loader.resolve env0 true crNone nrPpne "pkg" ctx4 ≠
      Loader.resolveSync env0 true crNone nrPpne "pkg" ctx4 := by
  refine ⟨by decide, by decide, by decide⟩

/-- C4 (amended): the blocking and the suspending hook reach identical
decisions on every input whose native failure (if any) does not carry the
code `ERR_PACKAGE_PATH_NOT_EXPORTED`; for that code the suspending variant
retries through the native resolver while the blocking variant retries
through the custom resolver, and the outcomes can differ. -/
theorem spec_c4_amended (env : NodeEnv) (hasResolver : Bool) (customResolve : CustomResolve)
    (nextResolve : NativeResolve) (specifier : String) (context : ResolveContext)
    (h : ∀ err, nextResolve specifier context = .error err →
      err.code ≠ "ERR_PACKAGE_PATH_NOT_EXPORTED") :
    Loader.resolve env hasResolver customResolve nextResolve specifier context =
      Loader.resolveSync env hasResolver customResolve nextResolve specifier context := by
  rcases hnr : nextResolve specifier context with err | r
  · have h2 := h err hnr
    simp only [Loader.resolve, Loader.resolveSync, hnr]
    simp [h2]
  · simp [Loader.resolve, Loader.resolveSync, hnr]

/-- Witness for the amended C4 at a concrete input (a plain not-found
failure): both hooks return the same custom-resolved result. -/
theorem spec_c4_amended_witness :
    Loader.resolve env0 true crAlways nrNotFound "pkg" ctx4 =
      Loader.resolveSync env0 true crAlways nrNotFound "pkg" ctx4 :=
  spec_c4_amended env0 true crAlways nrNotFound "pkg" ctx4
    (fun err herr => by
      have : err = notFoundErr := by
        have := herr.symm.trans (rfl : nrNotFound "pkg" ctx4 = .error notFoundErr)
        injection this
      rw [this]
      decide)

/-- The oxc parse result for `import { A, b } from 'pkg'` (offsets as the
parser reports them: the declaration spans [0, 26), `A` spans [9, 10) and `b`
spans [12, 13)). -/
def pkgAstNamed : ParseResult :=
  ⟨[], [.importDecl ⟨"value", "pkg",
    [⟨.importSpecifier, some "value", .ident "A", "A", 9, 10⟩,
     ⟨.importSpecifier, some "value", .ident "b", "b", 12, 13⟩], 0, 26⟩]⟩

/-- See `pkgAstNamed`. -/
def srcNamed : String := "import \x7b A, b \x7d from \x27pkg\x27"

/-- The oxc parse result for `import pg, { A } from 'pkg'` (declaration
[0, 27), default specifier `pg` [7, 9), named specifier `A` [13, 14)). -/
def pkgAstDefault : ParseResult :=
  ⟨[], [.importDecl ⟨"value", "pkg",
    [⟨.importDefaultSpecifier, none, .ident "pg", "pg", 7, 9⟩,
     ⟨.importSpecifier, some "value", .ident "A", "A", 13, 14⟩], 0, 27⟩]⟩

/-- See `pkgAstDefault`. -/
def srcDefault : String := "import pg, \x7b A \x7d from \x27pkg\x27"

/-- C3: with runtime exports exactly `{b}`, `import { A, b } from 'pkg'`
rewrites to `import { b } from 'pkg'`; with empty runtime exports the entire
declaration becomes an inert comment preserving its text; and
`import pg, { A } from 'pkg'` with `A` absent at runtime rewrites to
`import pg from 'pkg'` (brace clause and preceding comma removed, and the
default import kept). -/
theorem spec_c3 :
    Loader.filterTypeOnlyImports (fun s => if s = "pkg" then some ["b"] else none)
      (fun _ _ => pkgAstNamed) srcNamed "file:///app/m.mts" = "import \x7b b \x7d from \x27pkg\x27" ∧
    Loader.filterTypeOnlyImports (fun s => if s = "pkg" then some [] else none)
      (fun _ _ => pkgAstNamed) srcNamed "file:///app/m.mts" =
      "/* removed type-only: import \x7b A, b \x7d from \x27pkg\x27 */" ∧
    Loader.filterTypeOnlyImports (fun s => if s = "pkg" then some ["default"] else none)
      (fun _ _ => pkgAstDefault) srcDefault "file:///app/m.mts" = "import pg from \x27pkg\x27" := by
  refine ⟨by decide, by decide, by decide⟩

/-- The elider returns the buffer untouched when the parser reports errors. -/
theorem filterTypeOnlyImports_of_errors (getExports : GetExports) (parse : ParseFn)
    (source url : String) (h : (parse url source).errors ≠ []) :
    Loader.filterTypeOnlyImports getExports parse source url = source := by
  unfold Loader.filterTypeOnlyImports
  rw [if_pos]
  exact List.length_pos.mpr h

/-- C10 (implicit): if parsing a loaded `module-typescript` source yields any
parse errors, the load hook returns the `nextLoad` result completely
unchanged — the elider performs no edits on a source it could not parse. -/
theorem spec_c10 (getExports : GetExports) (parse : ParseFn)
    (nextLoad : String → Except JSError Loader.LoadResult) (url : String)
    (r : Loader.LoadResult) (src : String)
    (hnl : nextLoad url = .ok r)
    (hfmt : r.format = some "module-typescript")
    (hsrc : r.source = some src)
    (herr : (parse url src).errors ≠ []) :
    Loader.load getExports parse nextLoad url = .ok r := by
  simp only [Loader.load, hnl, hfmt]
  simp only [ne_eq, not_true_eq_false, if_false, hsrc]
  rw [filterTypeOnlyImports_of_errors getExports parse src url herr]
  simp

/-- Fixture for the C10 witness: a parse result with one error. -/
def brokenAst : ParseResult := ⟨["Unexpected token"], []⟩

/-- Witness for C10 at a concrete input. -/
theorem spec_c10_witness :
    Loader.load (fun _ => some []) (fun _ _ => brokenAst)
      (fun _ => .ok ⟨some "module-typescript", some "import \x7b"⟩) "file:///app/m.mts" =
      .ok ⟨some "module-typescript", some "import \x7b"⟩ :=
  spec_c10 (fun _ => some []) (fun _ _ => brokenAst)
    (fun _ => .ok ⟨some "module-typescript", some "import \x7b"⟩) "file:///app/m.mts"
    ⟨some "module-typescript", some "import \x7b"⟩ "import \x7b"
    (by decide) (by decide) (by decide) (by decide)

namespace Introspector

/-- A `getRuntimeExports` call never touches the export cache. -/
theorem getRuntimeExports_cache_eq (st : IState) (s' : String) :
    (getRuntimeExports st s').1.cache = st.cache := by
  unfold getRuntimeExports
  split
  · rfl
  · split
    · rfl
    · rfl

/-- A `getRuntimeExports` call for another specifier leaves this specifier's
pending entry alone. -/
theorem getRuntimeExports_pending_ne (st : IState) (s' s : String) (h : s ≠ s') :
    mapGet (getRuntimeExports st s').1.pending s = mapGet st.pending s := by
  unfold getRuntimeExports
  split
  · rfl
  · split
    · rfl
    · exact mapGet_mapSet_ne _ _ _ _ h

/-- On a cache hit the call returns the cached value and the state whole. -/
theorem getRuntimeExports_of_cached (st : IState) (s : String) (v : Option (List String))
    (h : mapGet st.cache s = some v) : getRuntimeExports st s = (st, .hit v) := by
  unfold getRuntimeExports
  rw [h]

/-- The settle step writes exactly one cache key. -/
theorem settleProbe_cache (st : IState) (s' : String) (o : ProbeOutcome) :
    (settleProbe st s' o).1.cache =
      mapSet st.cache s' (match o with | .ok names => some names | .err => none) := by
  cases o <;> rfl

/-- Once a value is cached for `s` and no probe for `s` is in flight, any
valid interleaving of further events preserves both facts. -/
theorem cached_preserved (s : String) (v : Option (List String)) :
    ∀ (evs : List IEvent) (st : IState),
      mapGet st.cache s = some v → mapGet st.pending s = none →
      OkTrace st evs →
      mapGet (runEvents st evs).cache s = some v ∧
      mapGet (runEvents st evs).pending s = none := by
  intro evs
  induction evs with
  | nil => intro st hc hp _; exact ⟨hc, hp⟩
  | cons ev rest ih =>
    intro st hc hp htr
    cases htr with
    | @call _ s' _ htl =>
      have hnext : runEvents st (IEvent.call s' :: rest) =
          runEvents (stepEvent st (.call s')) rest := rfl
      rw [hnext]
      apply ih
      · rw [show (stepEvent st (IEvent.call s')).cache = (getRuntimeExports st s').1.cache
          from rfl]
        rw [getRuntimeExports_cache_eq]
        exact hc
      · by_cases hss : s = s'
        · subst hss
          rw [show stepEvent st (IEvent.call s) = (getRuntimeExports st s).1 from rfl]
        
          rw [getRuntimeExports_of_cached st s v hc]
          exact hp
        · rw [show (stepEvent st (IEvent.call s')).pending =
            (getRuntimeExports st s').1.pending from rfl]
          rw [getRuntimeExports_pending_ne st s' s hss]
          exact hp
      · exact htl
    | @settle _ s' o _ id hpend htl =>
      have hss : s ≠ s' := by
        intro hh
        rw [← hh, hp] at hpend
        cases hpend
      have hnext : runEvents st (IEvent.settle s' o :: rest) =
          runEvents (stepEvent st (.settle s' o)) rest := rfl
      rw [hnext]
      apply ih
      · rw [show (stepEvent st (IEvent.settle s' o)).cache = (settleProbe st s' o).1.cache
          from rfl]
        rw [settleProbe_cache]
        rw [mapGet_mapSet_ne _ _ _ _ hss]
        exact hc
      · rw [show (stepEvent st (IEvent.settle s' o)).pending = mapDelete st.pending s'
          from rfl]
        rw [mapGet_mapDelete_ne _ _ _ hss]
        exact hp
      · exact htl

end Introspector

/-- C8: the introspector never propagates a probe failure — a failing probe
settles by caching the null sentinel and returning `null` — and once a value
(including the null sentinel) is cached for a specifier, every later call for
it under any valid interleaving returns the cached value and changes nothing
(in particular no new probe is started). -/
theorem spec_c8 (s : String) :
    (∀ st : Introspector.IState,
      (Introspector.settleProbe st s .err).2 = none ∧
      mapGet (Introspector.settleProbe st s .err).1.cache s = some none) ∧
    (∀ (st : Introspector.IState) (v : Option (List String))
        (evs : List Introspector.IEvent),
      mapGet st.cache s = some v → mapGet st.pending s = none →
      Introspector.OkTrace st evs →
      Introspector.getRuntimeExports (Introspector.runEvents st evs) s =
        (Introspector.runEvents st evs, .hit v)) := by
  constructor
  · intro st
    refine ⟨rfl, ?_⟩
    show mapGet (mapSet st.cache s none) s = some none
    exact mapGet_mapSet_self _ _ _
  · intro st v evs hc hp htr
    exact Introspector.getRuntimeExports_of_cached _ _ _
      (Introspector.cached_preserved s v evs st hc hp htr).1

/-- Witness for C8 at a concrete input: a failed probe for `"pkg"` caches the
null sentinel and returns `null`, and a later call returns the cached null
without touching the state. -/
theorem spec_c8_witness :
    (Introspector.settleProbe ⟨[], [("pkg", 0)], 1, [("pkg", 0)]⟩ "pkg" .err).2 = none ∧
    mapGet (Introspector.settleProbe ⟨[], [("pkg", 0)], 1, [("pkg", 0)]⟩
      "pkg" .err).1.cache "pkg" = some none ∧
    Introspector.getRuntimeExports ⟨[("pkg", none)], [], 1, [("pkg", 0)]⟩ "pkg" =
      (⟨[("pkg", none)], [], 1, [("pkg", 0)]⟩, .hit none) := by
  have h := spec_c8 "pkg"
  exact ⟨(h.1 _).1, (h.1 _).2,
    h.2 ⟨[("pkg", none)], [], 1, [("pkg", 0)]⟩ none [] (by decide) (by decide)
      Introspector.OkTrace.nil⟩

namespace Introspector

/-- The state after the first-ever `getRuntimeExports` call for `s`. -/
def afterFirstCall (s : String) : IState := ⟨[], [(s, 0)], 1, [(s, 0)]⟩

/-- The first call from the fresh state starts probe 0 for `s`. -/
theorem stepEvent_init_call (s : String) :
    stepEvent initState (.call s) = afterFirstCall s := rfl

/-- Any further call for `s` while probe 0 is still pending changes nothing. -/
theorem stepEvent_afterFirstCall (s : String) :
    stepEvent (afterFirstCall s) (.call s) = afterFirstCall s := by
  show (getRuntimeExports (afterFirstCall s) s).1 = afterFirstCall s
  unfold getRuntimeExports
  have hc : mapGet (afterFirstCall s).cache s = none := rfl
  have hp : mapGet (afterFirstCall s).pending s = some 0 := by
    simp [afterFirstCall, mapGet, List.find?]
  rw [hc, hp]

/-- Iterating calls for `s` from the post-first-call state is stationary. -/
theorem runEvents_afterFirstCall (s : String) :
    ∀ j, runEvents (afterFirstCall s) (List.replicate j (.call s)) = afterFirstCall s := by
  intro j
  induction j with
  | zero => rfl
  | succ n ih =>
    rw [List.replicate_succ]
    show runEvents (stepEvent (afterFirstCall s) (.call s)) (List.replicate n (.call s)) =
      afterFirstCall s
    rw [stepEvent_afterFirstCall]
    exact ih

end Introspector

/-- C9: a `getRuntimeExports` call finding an in-flight probe in the pending
map returns that very probe (same identity) and starts nothing new; hence any
number `k ≥ 1` of concurrent first-time calls for one specifier from the
fresh state launch exactly one probe (`started = [(s, 0)]`), all wait on it,
and the pending entry is removed once the probe settles. -/
theorem spec_c9 (s : String) :
    (∀ (st : Introspector.IState) (id : Nat),
      mapGet st.cache s = none → mapGet st.pending s = some id →
      Introspector.getRuntimeExports st s = (st, .wait id)) ∧
    (∀ k : Nat, 1 ≤ k →
      (Introspector.runEvents Introspector.initState
          (List.replicate k (Introspector.IEvent.call s))).started = [(s, 0)] ∧
      mapGet (Introspector.runEvents Introspector.initState
          (List.replicate k (Introspector.IEvent.call s))).pending s = some 0 ∧
      (∀ o, mapGet (Introspector.settleProbe
          (Introspector.runEvents Introspector.initState
            (List.replicate k (Introspector.IEvent.call s))) s o).1.pending s = none)) := by
  constructor
  · intro st id hc hp
    unfold Introspector.getRuntimeExports
    rw [hc, hp]
  · intro k hk
    obtain ⟨n, rfl⟩ : ∃ n, k = n + 1 := ⟨k - 1, (Nat.succ_pred_eq_of_pos hk).symm⟩
    have hrun : Introspector.runEvents Introspector.initState
        (List.replicate (n + 1) (Introspector.IEvent.call s)) =
          Introspector.afterFirstCall s := by
      rw [List.replicate_succ]
      show Introspector.runEvents
        (Introspector.stepEvent Introspector.initState (.call s))
        (List.replicate n (.call s)) = Introspector.afterFirstCall s
      rw [Introspector.stepEvent_init_call]
      exact Introspector.runEvents_afterFirstCall s n
    rw [hrun]
    refine ⟨rfl, by simp [Introspector.afterFirstCall, mapGet, List.find?], ?_⟩
    intro o
    show mapGet (mapDelete ([(s, 0)] : List (String × Nat)) s) s = none
    simp [mapDelete, List.eraseP_cons, mapGet]

/-- Witness for C9 at a concrete input: ten interleaved first-time calls for
`"pkg"` launch exactly one probe, and an eleventh call waits on probe 0. -/
theorem spec_c9_witness :
    (Introspector.runEvents Introspector.initState
        (List.replicate 10 (Introspector.IEvent.call "pkg"))).started = [("pkg", 0)] ∧
    Introspector.getRuntimeExports
        (Introspector.runEvents Introspector.initState
          (List.replicate 10 (Introspector.IEvent.call "pkg"))) "pkg" =
      (Introspector.runEvents Introspector.initState
        (List.replicate 10 (Introspector.IEvent.call "pkg")), .wait 0) := by
  have h := spec_c9 "pkg"
  exact ⟨(h.2 10 (by decide)).1, h.1 _ 0 (by decide) (by decide)⟩

/-! ## Lemmas for the bounded cache -/

theorem mapSet_length_le {α : Type} (m : List (String × α)) (k : String) (v : α) :
    (mapSet m k v).length ≤ m.length + 1 := by
  unfold mapSet
  split
  · simp
  · simp

theorem mapSet_keys_ne {α : Type} (m : List (String × α)) (k : String) (v : α)
    (hk : k ≠ "") (hm : ∀ p ∈ m, p.1 ≠ "") : ∀ p ∈ mapSet m k v, p.1 ≠ "" := by
  unfold mapSet
  split
  · intro p hp
    rw [List.mem_map] at hp
    obtain ⟨q, hq, rfl⟩ := hp
    by_cases h : q.1 = k
    · simp only [if_pos h]
      exact hk
    · simp only [if_neg h]
      exact hm q hq
  · intro p hp
    rw [List.mem_append] at hp
    cases hp with
    | inl h => exact hm p h
    | inr h =>
      rw [List.mem_singleton] at h
      rw [h]
      exact hk

/-- The size/nonempty-key invariant the program maintains on its cache. -/
def CacheInv (c : ResolverCache) : Prop :=
  c.cache.length ≤ c.maxSize ∧ ∀ p ∈ c.cache, p.1 ≠ ""

namespace ResolverCache

theorem set_maxSize (c : ResolverCache) (k v : String) : (c.set k v).maxSize = c.maxSize := by
  unfold set
  rfl

theorem set_cache_of_full (c : ResolverCache) (k v : String) (f : String × String)
    (hc : c.maxSize ≤ c.cache.length) (hh : c.cache.head? = some f) (hf : f.1 ≠ "") :
    (c.set k v).cache = mapSet c.cache.tail k v := by
  unfold set
  rw [if_pos hc, hh]
  simp only [ne_eq, hf, not_false_iff, if_true]
  congr 1
  cases hcc : c.cache with
  | nil => rw [hcc] at hh; cases hh
  | cons a t =>
    rw [hcc] at hh
    injection hh with hh
    subst hh
    unfold mapDelete
    rw [List.eraseP_cons_of_pos (by simp)]
    rfl

theorem set_cache_of_spare (c : ResolverCache) (k v : String)
    (hc : ¬ c.maxSize ≤ c.cache.length) : (c.set k v).cache = mapSet c.cache k v := by
  unfold set
  rw [if_neg hc]

end ResolverCache

theorem cacheInv_set (c : ResolverCache) (k v : String) (hm : 0 < c.maxSize)
    (hinv : CacheInv c) (hk : k ≠ "") : CacheInv (c.set k v) := by
  by_cases hc : c.maxSize ≤ c.cache.length
  · have hlen : c.cache.length = c.maxSize := le_antisymm hinv.1 hc
    have hpos : 0 < c.cache.length := by rw [hlen]; exact hm
    obtain ⟨f, t, hft⟩ : ∃ f t, c.cache = f :: t := by
      cases hcc : c.cache with
      | nil => rw [hcc] at hpos; cases hpos
      | cons f t => exact ⟨f, t, rfl⟩
    have hh : c.cache.head? = some f := by rw [hft]; rfl
    have hf : f.1 ≠ "" := hinv.2 f (by rw [hft]; exact List.mem_cons_self _ _)
    have hcache := ResolverCache.set_cache_of_full c k v f hc hh hf
    constructor
    · rw [ResolverCache.set_maxSize, hcache]
      have h1 : (mapSet c.cache.tail k v).length ≤ c.cache.tail.length + 1 :=
        mapSet_length_le _ _ _
      have h2 : c.cache.tail.length + 1 = c.cache.length := by
        rw [hft]
        rfl
      rw [h2, hlen] at h1
      exact h1
    · rw [hcache]
      apply mapSet_keys_ne _ _ _ hk
      intro p hp
      exact hinv.2 p (List.mem_of_mem_tail hp)
  · have hcache := ResolverCache.set_cache_of_spare c k v hc
    constructor
    · rw [ResolverCache.set_maxSize, hcache]
      have h1 : (mapSet c.cache k v).length ≤ c.cache.length + 1 := mapSet_length_le _ _ _
      have h2 : c.cache.length + 1 ≤ c.maxSize := Nat.succ_le_of_lt (Nat.lt_of_not_le hc)
      exact h1.trans h2
    · rw [hcache]
      exact mapSet_keys_ne _ _ _ hk hinv.2

theorem cacheInv_runOps (ops : List CacheOp) :
    ∀ c : ResolverCache, 0 < c.maxSize → CacheInv c → (∀ op ∈ ops, cacheOpKeyOk op) →
      CacheInv (runCacheOps c ops) ∧ (runCacheOps c ops).maxSize = c.maxSize := by
  induction ops with
  | nil => intro c _ hinv _; exact ⟨hinv, rfl⟩
  | cons op rest ih =>
    intro c hm hinv hops
    have hop := hops op (List.mem_cons_self _ _)
    have hrest : ∀ o ∈ rest, cacheOpKeyOk o := fun o ho => hops o (List.mem_cons_of_mem _ ho)
    cases op with
    | get k =>
      have hstep : runCacheOps c (CacheOp.get k :: rest) = runCacheOps c rest := rfl
      rw [hstep]
      exact ih c hm hinv hrest
    | set k v =>
      have hstep : runCacheOps c (CacheOp.set k v :: rest) = runCacheOps (c.set k v) rest := rfl
      rw [hstep]
      have hm' : 0 < (c.set k v).maxSize := by rw [ResolverCache.set_maxSize]; exact hm
      have := ih (c.set k v) hm' (cacheInv_set c k v hm hinv hop) hrest
      exact ⟨this.1, this.2.trans (ResolverCache.set_maxSize c k v)⟩

/-- C6: starting from the empty cache with a positive bound and keys as the
program writes them (never empty), the cache size never exceeds the bound
after any sequence of get/set operations; whenever a set runs against a full
cache it evicts exactly the earliest-inserted entry still present (the head
of the insertion order) and nothing else; and a get never changes the state,
so reads never refresh the eviction order. -/
theorem spec_c6 (maxSize : Nat) (ops : List CacheOp)
    (hm : 0 < maxSize) (hops : ∀ op ∈ ops, cacheOpKeyOk op) :
    (runCacheOps ⟨[], maxSize⟩ ops).cache.length ≤ maxSize ∧
    (∀ (c : ResolverCache) (f : String × String) (k v : String),
      c.maxSize ≤ c.cache.length → c.cache.head? = some f → f.1 ≠ "" →
      (c.set k v).cache = mapSet c.cache.tail k v) ∧
    (∀ (c : ResolverCache) (k : String), applyCacheOp c (.get k) = c) := by
  refine ⟨?_, fun c f k v => ResolverCache.set_cache_of_full c k v f, fun _ _ => rfl⟩
  have h := cacheInv_runOps ops ⟨[], maxSize⟩ hm ⟨by simp, by simp⟩ hops
  have := h.1.1
  rw [h.2] at this
  exact this

/-- Witness for C6 at a concrete input: bound 2, three distinct inserts and an
interleaved read; the size stays within the bound and the head (`"a:/d"`, the
earliest entry, read just before) is the one evicted. -/
theorem spec_c6_witness :
    (runCacheOps ⟨[], 2⟩ [.set "a:/d" "/d/a.ts", .set "b:/d" "/d/b.ts",
      .get "a:/d", .set "c:/d" "/d/c.ts"]).cache.length ≤ 2 ∧
    ((⟨[("a:/d", "/d/a.ts"), ("b:/d", "/d/b.ts")], 2⟩ : ResolverCache).set
        "c:/d" "/d/c.ts").cache =
      mapSet [("b:/d", "/d/b.ts")] "c:/d" "/d/c.ts" ∧
    applyCacheOp ⟨[("a:/d", "/d/a.ts"), ("b:/d", "/d/b.ts")], 2⟩ (.get "a:/d") =
      ⟨[("a:/d", "/d/a.ts"), ("b:/d", "/d/b.ts")], 2⟩ := by
  have h := spec_c6 2 [.set "a:/d" "/d/a.ts", .set "b:/d" "/d/b.ts",
    .get "a:/d", .set "c:/d" "/d/c.ts"] (by decide) (by decide)
  exact ⟨h.1,
    h.2.1 ⟨[("a:/d", "/d/a.ts"), ("b:/d", "/d/b.ts")], 2⟩ ("a:/d", "/d/a.ts")
      "c:/d" "/d/c.ts" (by decide) (by decide) (by decide),
    h.2.2 _ _⟩

/-- Fixture for the C7 counterexample: an engine that resolves `a` from
`/dir` and nothing else. -/
def oxcHit : TypeScriptResolver.OxcSync := fun dir spec =>
  if dir = "/dir" && spec = "a" then .ok (some "/dir/a.ts") else .ok none

/-- An engine that never resolves anything. -/
def oxcNever : TypeScriptResolver.OxcSync := fun _ _ => .ok none

/-- The empty cache with the default bound 10000. -/
def emptyCache : ResolverCache := ⟨[], 10000⟩

/-- Counterexample to C7 as stated: the cache key carries no conditions.  A
resolution under conditions `["node", "import"]` populates the cache; a later
lookup for the same specifier and parent but conditions `["node", "require"]`
— and an engine that can no longer resolve anything — is served the cached
path from the very same entry, and the cache is unchanged (no second entry
keyed by conditions exists). -/
theorem spec_c7_counterexample :
    (TypeScriptResolver.resolveWithConditions env0 oxcHit emptyCache "a" "/dir/main.ts"
      ["node", "import"]).2 = some "/dir/a.ts" ∧
    TypeScriptResolver.resolveWithConditions env0 oxcNever
      (TypeScriptResolver.resolveWithConditions env0 oxcHit emptyCache "a" "/dir/main.ts"
        ["node", "import"]).1 "a" "/dir/main.ts" ["node", "require"] =
      ((TypeScriptResolver.resolveWithConditions env0 oxcHit emptyCache "a" "/dir/main.ts"
        ["node", "import"]).1, some "/dir/a.ts") ∧
    oxcNever "/dir" "a" = .ok none := by
  refine ⟨by decide, by decide, by decide⟩

/-- C7 (amended): cache entries are keyed by the string concatenation
`specifier + ":" + parent` alone; the active conditions take no part in the
key (the method has no conditions parameter, and a conditions argument passed
by callers is silently dropped), so any lookup whose concatenated key matches
a truthy cached entry is served that entry, for every conditions list and
every resolver engine. -/
theorem spec_c7_amended (env : NodeEnv) (oxcSync : TypeScriptResolver.OxcSync)
    (cache : ResolverCache) (specifier parent : String) (conditions : List String)
    (p : String)
    (hget : cache.get (TypeScriptResolver.cacheKey specifier parent) = some p)
    (hp : p ≠ "") :
    TypeScriptResolver.resolveWithConditions env oxcSync cache specifier parent conditions =
      (cache, some p) := by
  unfold TypeScriptResolver.resolveWithConditions TypeScriptResolver.resolve
  rw [hget]
  simp only [if_neg hp]

/-- Witness for the amended C7 at a concrete input: a cached entry is
returned under a conditions list and an engine that never produced it. -/
theorem spec_c7_amended_witness :
    TypeScriptResolver.resolveWithConditions env0 oxcNever
      ⟨[("a:/dir/main.ts", "/dir/a.ts")], 10000⟩ "a" "/dir/main.ts" ["node", "require"] =
      (⟨[("a:/dir/main.ts", "/dir/a.ts")], 10000⟩, some "/dir/a.ts") :=
  spec_c7_amended env0 oxcNever ⟨[("a:/dir/main.ts", "/dir/a.ts")], 10000⟩
    "a" "/dir/main.ts" ["node", "require"] "/dir/a.ts" (by decide) (by decide)
